import Mathlib

/-!
zerologr: a logr sink over zerolog.

A shallow embedding of `zerologr.go` (level translation, key-value validation,
the sink operations `Enabled`, `Info`, `Error`, `WithName` and `WithValues`)
together with machine-checked statements about it.

Conventions of the embedding:

* Go `int` values are modelled as `Int`.  The conversion `zerolog.Level(lvl)`
  is a Go integer conversion to `int8`, which keeps the low eight bits; it is
  `wrapInt8`.  Arithmetic on `zerolog.Level` is `int8` arithmetic and wraps the
  same way.
* `interface{}` values are modelled by `Value`; `error` values by their message.
* The output stream of the backend logger is passed explicitly as a list of
  records.
-/

namespace Zerologr

/-! ## Level translation -/

/-- Two's-complement reduction of an integer to the `int8` range `[-128, 127]`
(what a Go conversion to `int8`, and every `int8` operation, computes). -/
def wrapInt8 (x : Int) : Int := (x + 128) % 256 - 128

/-- The function `toZeroLevel` of `zerologr.go`:
the clamp `if lvl > 127 { lvl = 127 }`, the conversion `zerolog.Level(lvl)`,
the `int8` subtraction `0 - _` and the `int8` addition `_ + 1`. -/
def toZeroLevel (lvl : Int) : Int :=
  let lvl := if lvl > 127 then 127 else lvl
  wrapInt8 (wrapInt8 (0 - wrapInt8 lvl) + 1)

/-- The integer `x` saturated into the `int8` range `[-128, 127]`. -/
def saturateInt8 (x : Int) : Int :=
  if x > 127 then 127 else if x < -128 then -128 else x

/-! ## Key-value validation -/

/-- Go `interface{}` values handed to the logging calls.  Only two things are
ever asked of such a value: whether its dynamic type is `string`, and its
`%v` rendering.  `other shown` stands for a value of any further dynamic type,
carrying its `%v` rendering. -/
inductive Value where
  | nil
  | str (s : String)
  | int (n : Int)
  | bool (b : Bool)
  | other (shown : String)
  deriving DecidableEq, Repr

/-- The type assertion `kStr, isString := k.(string)`. -/
def assertString : Value → String × Bool
  | .str s => (s, true)
  | _ => ("", false)

/-- The rendering of a value under the `%v` verb of `fmt`. -/
def formatV : Value → String
  | .nil => "<nil>"
  | .str s => s
  | .int n => toString n
  | .bool b => if b then "true" else "false"
  | .other shown => shown

/-- The struct `keyValue` of `zerologr.go`. -/
structure keyValue where
  key : String
  value : Value
  deriving DecidableEq, Repr

/-- Outcome of running a Go function body: a normal return, a runtime panic
(here only ever an index out of range), or exhaustion of the fuel given to a
loop of the embedding. -/
inductive Run (α : Type) where
  | ret (a : α)
  | panic
  | outOfFuel
  deriving DecidableEq, Repr

/-- Message of the error returned for an odd number of arguments. -/
def oddArgsMsg : String :=
  "odd number of arguments passed as key-value pairs for logging"

/-- Message of `fmt.Errorf("non-string key argument passed to logging: %v", k)`. -/
def nonStringKeyMsg (k : Value) : String :=
  "non-string key argument passed to logging: " ++ formatV k

/-- The loop `for i := 0; i < len(args); i += 2 { ... }` of `newKeyValues`,
started at index `i` with the pairs `kvs` collected so far.  Reading `args[i]`
or `args[i+1]` past the end of the slice is a runtime panic.  The result is the
Go pair `(kvs, err)`, the error being given by its message. -/
def newKeyValuesLoop (args : List Value) :
    Nat → Nat → List keyValue → Run (List keyValue × Option String)
  | 0, _, _ => .outOfFuel
  | fuel + 1, i, kvs =>
    if i < args.length then
      match args[i]?, args[i + 1]? with
      | some k, some v =>
        let (kStr, isString) := assertString k
        if !isString then
          .ret ([], some (nonStringKeyMsg k))
        else
          newKeyValuesLoop args fuel (i + 2) (kvs ++ [{ key := kStr, value := v }])
      | _, _ => .panic
    else
      .ret (kvs, none)

/-- The function `newKeyValues` of `zerologr.go`.  The loop is given
`len(args) + 1` units of fuel. -/
def newKeyValues (args : List Value) : Run (List keyValue × Option String) :=
  if args.length == 0 then
    .ret ([], none)
  else if args.length % 2 != 0 then
    .ret ([], some oddArgsMsg)
  else
    newKeyValuesLoop args (args.length + 1) 0 []

/-- The flat argument list `k₀, v₀, k₁, v₁, …` that a list of pairs stands for. -/
def flattenKeyValues : List keyValue → List Value
  | [] => []
  | kv :: rest => Value.str kv.key :: kv.value :: flattenKeyValues rest

/-- A well-formed argument list: an even number of arguments, each one at an
even index being a string. -/
def WellFormed (args : List Value) : Prop :=
  args.length % 2 = 0 ∧
    ∀ i k, i % 2 = 0 → args[i]? = some k → (assertString k).2 = true

/-- Proof device: the pairs read off a flat list two elements at a time. -/
def pairsOf : List Value → List keyValue
  | k :: v :: rest => { key := (assertString k).1, value := v } :: pairsOf rest
  | _ => []

/-- Proof device: the first element at an even index that is not a string. -/
def firstBadKey : List Value → Option Value
  | k :: _ :: rest => if (assertString k).2 then firstBadKey rest else some k
  | [k] => if (assertString k).2 then none else some k
  | [] => none

/-! ## The backend logger -/

/-- Modelled from the spec: a field of a backend record or of a logger's
persistent context (the backend library, zerolog, is not part of the sources). -/
structure Field where
  key : String
  value : Value
  deriving DecidableEq, Repr

/-- Modelled from the spec: one record written by the backend, with its
severity, its fields in serialisation order and its message text. -/
structure Record where
  level : Int
  fields : List Field
  message : String
  deriving DecidableEq, Repr

/-- Modelled from the spec: the backend logger value held by the adapter, with
its configured minimum severity and its persistent context fields. -/
structure Logger where
  level : Int
  context : List Field
  deriving DecidableEq, Repr

/-- Modelled from the spec: an event under construction.  The builders return
`none` (the backend's nil event) for a record that will not be written. -/
structure Event where
  level : Int
  fields : List Field
  deriving DecidableEq, Repr

/-- The backend's debug severity. -/
def DebugLevel : Int := 0

/-- The backend's info severity. -/
def InfoLevel : Int := 1

/-- The backend's error severity. -/
def ErrorLevel : Int := 3

/-- Modelled from the spec: the "get configured minimum severity" accessor. -/
def Logger.GetLevel (l : Logger) : Int := l.level

/-- Modelled from the spec: the "with level" event builder.  A record below the
logger's configured minimum severity is suppressed and never reaches the write
path; otherwise the event starts from the logger's context fields. -/
def Logger.WithLevel (l : Logger) (level : Int) : Option Event :=
  if level < l.level then none else some { level := level, fields := l.context }

/-- Modelled from the spec: the field attacher on events. -/
def Event.Interface (e : Option Event) (key : String) (value : Value) : Option Event :=
  e.map fun ev => { ev with fields := ev.fields ++ [{ key := key, value := value }] }

/-- Modelled from the spec: the error event builder `Err(err)` for a non-nil
error, an error-severity event carrying the error under the key `error`. -/
def Logger.Err (l : Logger) (err : String) : Option Event :=
  Event.Interface (l.WithLevel ErrorLevel) "error" (Value.str err)

/-- Modelled from the spec: the event finaliser, which takes the message text
and performs the write; on the nil event nothing is written. -/
def Event.Msg (e : Option Event) (msg : String) (out : List Record) : List Record :=
  match e with
  | none => out
  | some ev => out ++ [{ level := ev.level, fields := ev.fields, message := msg }]

/-! ## The sink adapter -/

/-- The struct `zeroLogger` of `zerologr.go`. -/
structure zeroLogger where
  l : Logger
  deriving DecidableEq, Repr

/-- The function `addToEvent` of `zerologr.go`; the event is updated in place
in the source and returned here. -/
def addToEvent (e : Option Event) (keysAndVals : List keyValue) : Option Event :=
  keysAndVals.foldl (fun ev kv => Event.Interface ev kv.key kv.value) e

/-- The method `Enabled` of `zerologr.go`. -/
def zeroLogger.Enabled (zl : zeroLogger) (lvl : Int) : Bool :=
  decide (toZeroLevel lvl ≥ zl.l.GetLevel)

/-- The method `Info` of `zerologr.go`, on the output `out` written so far. -/
def zeroLogger.Info (zl : zeroLogger) (lvl : Int) (msg : String) (args : List Value)
    (out : List Record) : Run (List Record) :=
  match newKeyValues args with
  | .ret (kvs, err) =>
    match err with
    | some m => .ret (Event.Msg (zl.l.Err m) "unable to log message" out)
    | none =>
      let e := zl.l.WithLevel (toZeroLevel lvl)
      let e := addToEvent e kvs
      .ret (Event.Msg e msg out)
  | .panic => .panic
  | .outOfFuel => .outOfFuel

/-- The backend fields that a list of pairs is attached as. -/
def fieldsOf (kvs : List keyValue) : List Field :=
  kvs.map fun kv => { key := kv.key, value := kv.value }

/-- The backend's fatal severity. -/
def FatalLevel : Int := 4

/-- Modelled from the spec: the "error" event builder, an event at error
severity. -/
def Logger.Error (l : Logger) : Option Event := l.WithLevel ErrorLevel

/-- Modelled from the spec: attaching an error value, which may be absent, to
an event as the dedicated field `error`; an absent error adds nothing. -/
def Event.Err (e : Option Event) (err : Option String) : Option Event :=
  match err with
  | none => e
  | some m => Event.Interface e "error" (Value.str m)

/-- Modelled from the spec: a persistent-context builder, holding a copy of the
logger it was derived from. -/
structure Context where
  l : Logger
  deriving DecidableEq, Repr

/-- Modelled from the spec: the start of a derivation, `With()`. -/
def Logger.With (l : Logger) : Context := { l := l }

/-- Modelled from the spec: the field attacher on persistent-context builders. -/
def Context.Interface (c : Context) (key : String) (value : Value) : Context :=
  { l := { c.l with context := c.l.context ++ [{ key := key, value := value }] } }

/-- Modelled from the spec: the derived logger of a context builder. -/
def Context.Logger (c : Context) : Zerologr.Logger := c.l

/-- The function `addToContext` of `zerologr.go`. -/
def addToContext (ctx : Context) (keysAndVals : List keyValue) : Context :=
  keysAndVals.foldl (fun c kv => c.Interface kv.key kv.value) ctx

/-- The method `Error` of `zerologr.go`, on the output `out` written so far;
the error argument is given by its message, `none` being the nil error. -/
def zeroLogger.Error (zl : zeroLogger) (err : Option String) (msg : String)
    (args : List Value) (out : List Record) : Run (List Record) :=
  if zl.l.GetLevel > ErrorLevel then
    .ret out
  else
    let event := Event.Err zl.l.Error err
    match newKeyValues args with
    | .ret (kvs, err) =>
      match err with
      | some m => .ret (Event.Msg (zl.l.Err m) "unable to log message" out)
      | none =>
        let event := addToEvent event kvs
        .ret (Event.Msg event msg out)
    | .panic => .panic
    | .outOfFuel => .outOfFuel

/-- The method `WithName` of `zerologr.go`; the name is ignored. -/
def zeroLogger.WithName (zl : zeroLogger) (_ : String) : zeroLogger :=
  let newLogger := zl.l.With.Logger
  { l := newLogger }

/-- The method `WithValues` of `zerologr.go`, on the output `out` written so
far; it returns the adapter together with the output. -/
def zeroLogger.WithValues (zl : zeroLogger) (args : List Value) (out : List Record) :
    Run (zeroLogger × List Record) :=
  match newKeyValues args with
  | .ret (kvs, err) =>
    match err with
    | some m => .ret (zl, Event.Msg (zl.l.Err m) "unable to log message" out)
    | none =>
      let ctx := addToContext zl.l.With kvs
      let newLogger := ctx.Logger
      .ret ({ l := newLogger }, out)
  | .panic => .panic
  | .outOfFuel => .outOfFuel

/-- The fields an error argument is attached as: none for the nil error, the
field `error` otherwise. -/
def errorFields : Option String → List Field
  | none => []
  | some m => [{ key := "error", value := Value.str m }]

/-- The record written on a validation failure with message `m`. -/
def fallbackRecord (l : Logger) (m : String) : Record :=
  { level := ErrorLevel,
    fields := l.context ++ [{ key := "error", value := Value.str m }],
    message := "unable to log message" }

/-! ## Helper lemmas -/

theorem toZeroLevel_of_small (n : Int) (h1 : -126 ≤ n) (h2 : n ≤ 127) :
    toZeroLevel n = 1 - n := by
  unfold toZeroLevel wrapInt8
  simp only []
  split <;> omega

theorem toZeroLevel_of_large (n : Int) (h : 127 < n) : toZeroLevel n = -126 := by
  unfold toZeroLevel wrapInt8
  simp only []
  split <;> omega

/-- One turn of the loop at an index with two elements ahead of it. -/
theorem newKeyValuesLoop_step (args : List Value) (fuel i : Nat) (kvs : List keyValue)
    (k v : Value) (rest : List Value) (h : args.drop i = k :: v :: rest) :
    newKeyValuesLoop args (fuel + 1) i kvs =
      if (assertString k).2 then
        newKeyValuesLoop args fuel (i + 2) (kvs ++ [{ key := (assertString k).1, value := v }])
      else .ret ([], some (nonStringKeyMsg k)) := by
  have hlen : i + 2 ≤ args.length := by
    have := congrArg List.length h
    simp at this
    omega
  have hk : args[i]? = some k := by
    have := congrArg (fun l => l[0]?) h
    simpa using this
  have hv : args[i + 1]? = some v := by
    have := congrArg (fun l => l[1]?) h
    simpa using this
  have hrest : args.drop (i + 2) = rest := by
    have := congrArg (List.drop 2) h
    simpa [List.drop_drop, Nat.add_comm] using this
  rw [newKeyValuesLoop]
  have hi : i < args.length := by omega
  simp only [hi, if_true, hk, hv]
  cases hs : (assertString k).2 <;> simp [hs]

/-- The loop, run from an even distance to the end with enough fuel, returns
the pairs of the remaining arguments, or the error for the first bad key. -/
theorem newKeyValuesLoop_eq (args : List Value) :
    ∀ (fuel i : Nat) (kvs : List keyValue), (args.drop i).length % 2 = 0 →
      (args.drop i).length < 2 * fuel →
      newKeyValuesLoop args fuel i kvs =
        match firstBadKey (args.drop i) with
        | none => .ret (kvs ++ pairsOf (args.drop i), none)
        | some k => .ret ([], some (nonStringKeyMsg k)) := by
  intro fuel
  induction fuel with
  | zero => intro i kvs _ h; omega
  | succ fuel ih =>
    intro i kvs heven hfuel
    match hd : args.drop i with
    | [] =>
      have hi : ¬ i < args.length := by
        have := congrArg List.length hd
        simp at this
        omega
      rw [newKeyValuesLoop]
      simp [hi, firstBadKey, pairsOf]
    | [k] => rw [hd] at heven; simp at heven
    | k :: v :: rest =>
      have hrest : args.drop (i + 2) = rest := by
        have := congrArg (List.drop 2) hd
        simpa [List.drop_drop, Nat.add_comm] using this
      rw [newKeyValuesLoop_step args fuel i kvs k v rest hd]
      rw [hd] at heven hfuel
      simp only [List.length_cons] at heven hfuel
      cases hs : (assertString k).2
      · simp [firstBadKey, hs]
      · have := ih (i + 2) (kvs ++ [{ key := (assertString k).1, value := v }])
          (by rw [hrest]; omega) (by rw [hrest]; omega)
        rw [hrest] at this
        simp only [if_true, this, firstBadKey, hs, pairsOf]
        cases firstBadKey rest <;> simp

/-- What `newKeyValues` returns on a list of even length. -/
theorem newKeyValues_even (args : List Value) (h : args.length % 2 = 0) :
    newKeyValues args =
      match firstBadKey args with
      | none => .ret (pairsOf args, none)
      | some k => .ret ([], some (nonStringKeyMsg k)) := by
  unfold newKeyValues
  by_cases h0 : args.length = 0
  · have : args = [] := List.length_eq_zero.mp h0
    subst this
    simp [firstBadKey, pairsOf]
  · have h1 : (args.length == 0) = false := by simpa using h0
    have h2 : (args.length % 2 != 0) = false := by simp [h]
    simp only [h1, h2, Bool.false_eq_true, if_false]
    have := newKeyValuesLoop_eq args (args.length + 1) 0 [] (by simpa using h) (by simp; omega)
    simpa using this

/-- What `newKeyValues` returns on a list of odd length. -/
theorem newKeyValues_odd (args : List Value) (h : args.length % 2 = 1) :
    newKeyValues args = .ret ([], some oddArgsMsg) := by
  unfold newKeyValues
  have h1 : (args.length == 0) = false := by
    simp only [beq_eq_false_iff_ne]; omega
  have h2 : (args.length % 2 != 0) = true := by simp [h]
  simp [h1, h2]

theorem assertString_eq_of_isString (k : Value) (h : (assertString k).2 = true) :
    Value.str (assertString k).1 = k := by
  cases k <;> simp_all [assertString]

/-- No bad key exactly when every element at an even index is a string. -/
theorem firstBadKey_eq_none_iff : ∀ args : List Value,
    firstBadKey args = none ↔
      ∀ i k, i % 2 = 0 → args[i]? = some k → (assertString k).2 = true
  | [] => by simp [firstBadKey]
  | [k] => by
    constructor
    · intro h i k' hi hk
      have h0 : i = 0 := by
        rcases i with _ | i
        · rfl
        · simp at hk
      subst h0
      simp only [List.getElem?_cons_zero, Option.some.injEq] at hk
      subst hk
      by_contra hne
      simp [firstBadKey, hne] at h
    · intro h
      have := h 0 k (by simp) (by simp)
      simp [firstBadKey, this]
  | k :: v :: rest => by
    have ih := firstBadKey_eq_none_iff rest
    constructor
    · intro h i k' hi hk
      cases hs : (assertString k).2
      · simp [firstBadKey, hs] at h
      · simp only [firstBadKey, hs, if_true] at h
        rcases i with _ | _ | i
        · simp only [List.getElem?_cons_zero, Option.some.injEq] at hk
          subst hk
          exact hs
        · omega
        · simp only [List.getElem?_cons_succ] at hk
          exact ih.mp h i k' (by omega) hk
    · intro h
      have hk := h 0 k (by simp) (by simp)
      simp only [firstBadKey, hk, if_true]
      refine ih.mpr ?_
      intro i k' hi hk'
      exact h (i + 2) k' (by omega) (by simpa using hk')

/-- The bad key found is the non-string element of smallest even index. -/
theorem firstBadKey_eq_some : ∀ (args : List Value) (k : Value),
    firstBadKey args = some k →
      ∃ i, i % 2 = 0 ∧ args[i]? = some k ∧ (assertString k).2 = false ∧
        ∀ j k', j < i → j % 2 = 0 → args[j]? = some k' → (assertString k').2 = true
  | [], k => by simp [firstBadKey]
  | [k0], k => by
    intro h
    cases hs : (assertString k0).2
    · simp only [firstBadKey, hs, Bool.false_eq_true, if_false, Option.some.injEq] at h
      subst h
      exact ⟨0, by simp, by simp, hs, by intro j k' hj; omega⟩
    · simp [firstBadKey, hs] at h
  | k0 :: v :: rest, k => by
    intro h
    cases hs : (assertString k0).2
    · simp only [firstBadKey, hs, Bool.false_eq_true, if_false, Option.some.injEq] at h
      subst h
      exact ⟨0, by simp, by simp, hs, by intro j k' hj; omega⟩
    · simp only [firstBadKey, hs, if_true] at h
      obtain ⟨i, hi, hk, hbad, hmin⟩ := firstBadKey_eq_some rest k h
      refine ⟨i + 2, by omega, by simpa using hk, hbad, ?_⟩
      intro j k' hj hjeven hk'
      rcases j with _ | _ | j
      · simp only [List.getElem?_cons_zero, Option.some.injEq] at hk'
        subst hk'
        exact hs
      · omega
      · simp only [List.getElem?_cons_succ] at hk'
        exact hmin j k' (by omega) (by omega) hk'

/-- Flattening the pairs of a well-formed list gives the list back. -/
theorem flattenKeyValues_pairsOf : ∀ args : List Value,
    args.length % 2 = 0 → firstBadKey args = none →
      flattenKeyValues (pairsOf args) = args
  | [], _, _ => by simp [pairsOf, flattenKeyValues]
  | [k], h, _ => by simp at h
  | k :: v :: rest, h, hb => by
    cases hs : (assertString k).2
    · simp [firstBadKey, hs] at hb
    · simp only [firstBadKey, hs, if_true] at hb
      have hlen : rest.length % 2 = 0 := by
        simp only [List.length_cons] at h
        omega
      simp only [pairsOf, flattenKeyValues, flattenKeyValues_pairsOf rest hlen hb,
        assertString_eq_of_isString k hs]

theorem length_flattenKeyValues : ∀ kvs : List keyValue,
    (flattenKeyValues kvs).length = 2 * kvs.length
  | [] => by simp [flattenKeyValues]
  | kv :: rest => by
    simp only [flattenKeyValues, List.length_cons, length_flattenKeyValues rest]
    omega

/-- Pair `i` of a list of pairs sits at the indices `2i` and `2i+1` of its
flattening. -/
theorem getElem?_flattenKeyValues : ∀ (kvs : List keyValue) (i : Nat) (kv : keyValue),
    kvs[i]? = some kv →
      (flattenKeyValues kvs)[2 * i]? = some (Value.str kv.key) ∧
        (flattenKeyValues kvs)[2 * i + 1]? = some kv.value
  | [], i, kv => by simp
  | kv0 :: rest, 0, kv => by
    intro h
    simp only [List.getElem?_cons_zero, Option.some.injEq] at h
    subst h
    simp [flattenKeyValues]
  | kv0 :: rest, i + 1, kv => by
    intro h
    simp only [List.getElem?_cons_succ] at h
    have ih := getElem?_flattenKeyValues rest i kv h
    have e1 : 2 * (i + 1) = (2 * i + 1) + 1 := by omega
    have e2 : 2 * (i + 1) + 1 = (2 * i + 1 + 1) + 1 := by omega
    rw [e2, e1]
    simp only [flattenKeyValues, List.getElem?_cons_succ]
    exact ih

theorem addToEvent_some (ev : Event) : ∀ kvs : List keyValue,
    addToEvent (some ev) kvs = some { ev with fields := ev.fields ++ fieldsOf kvs } := by
  intro kvs
  induction kvs generalizing ev with
  | nil => simp [addToEvent, fieldsOf]
  | cons kv rest ih =>
    have := ih { ev with fields := ev.fields ++ [{ key := kv.key, value := kv.value }] }
    simp only [addToEvent, List.foldl_cons, Event.Interface, Option.map_some'] at this ⊢
    rw [this]
    simp [fieldsOf]

/-! ## Level translation: claims -/

/-- C1, counterexample: at `n = -128`, inside the stated range, `toZeroLevel`
returns `-127` whereas `-n + 1` is `129`. -/
theorem toZeroLevel_min_int8_counterexample :
    (-128 : Int) ≤ -128 ∧ (-128 : Int) ≤ 127 ∧ toZeroLevel (-128) = -127 ∧
      toZeroLevel (-128) ≠ -(-128) + 1 := by
  decide

/-- C1, as amended: for every integer `n` with `-126 ≤ n ≤ 127`,
`toZeroLevel n` equals `-n + 1`. -/
theorem toZeroLevel_eq_neg_add_one (n : Int) (hlo : -126 ≤ n) (hhi : n ≤ 127) :
    toZeroLevel n = -n + 1 := by
  rw [toZeroLevel_of_small n hlo hhi]
  omega

/-- C1, witness of the amended statement at the lower end `n = -126`. -/
theorem toZeroLevel_eq_neg_add_one_witness :
    (-126 : Int) ≤ -126 ∧ (-126 : Int) ≤ 127 ∧ toZeroLevel (-126) = -(-126) + 1 :=
  ⟨by decide, by decide, toZeroLevel_eq_neg_add_one (-126) (by decide) (by decide)⟩

/-- The code below the range that the clamp protects: `toZeroLevel (-127)` is
`-128`, the wrapped value of `1 - (-127) = 128`, whereas saturation into
`[-128, 127]` gives `127`; likewise `-128` gives `-127` and `-129` gives
`-126`. -/
theorem toZeroLevel_wraps_on_negative_input :
    toZeroLevel (-127) = -128 ∧ saturateInt8 (1 - (-127)) = 127 ∧
      toZeroLevel (-128) = -127 ∧ saturateInt8 (1 - (-128)) = 127 ∧
      toZeroLevel (-129) = -126 ∧ saturateInt8 (1 - (-129)) = 127 := by
  decide

/-- C2, counterexample: at `lvl = 128` the integer `1 - lvl` is `-127`, which
lies in the `int8` range and is left alone by saturation, whereas the code
clamps the input to `127` first and returns `-126`. -/
theorem toZeroLevel_not_saturated_difference_counterexample :
    toZeroLevel 128 = -126 ∧ saturateInt8 (1 - 128) = -127 ∧
      toZeroLevel 128 ≠ saturateInt8 (1 - 128) := by
  decide

/-- C2, as amended: for every integer `lvl ≥ -126`, `toZeroLevel lvl` is the
exact integer `1 - min lvl 127`, the input being saturated at `127`, and it
lies in the `int8` range; neither the conversion to `int8` nor the negation
nor the `+ 1` wraps around.  Up to `127` this is `1 - lvl` saturated into
`[-128, 127]`. -/
theorem toZeroLevel_saturates_input (lvl : Int) (hlo : -126 ≤ lvl) :
    toZeroLevel lvl = 1 - min lvl 127 ∧
      (wrapInt8 (min lvl 127) = min lvl 127 ∧
        wrapInt8 (0 - min lvl 127) = 0 - min lvl 127 ∧
        wrapInt8 (0 - min lvl 127 + 1) = 0 - min lvl 127 + 1) ∧
      (-128 ≤ toZeroLevel lvl ∧ toZeroLevel lvl ≤ 127) ∧
      (lvl ≤ 127 → toZeroLevel lvl = saturateInt8 (1 - lvl)) := by
  have hval : toZeroLevel lvl = 1 - min lvl 127 := by
    rcases le_or_lt lvl 127 with h | h
    · rw [toZeroLevel_of_small lvl hlo h, min_eq_left h]
    · rw [toZeroLevel_of_large lvl h, min_eq_right (le_of_lt h)]
      rfl
  have hmin : -126 ≤ min lvl 127 ∧ min lvl 127 ≤ 127 :=
    ⟨le_min hlo (by decide), min_le_right _ _⟩
  refine ⟨hval, ?_, ⟨by rw [hval]; omega, by rw [hval]; omega⟩, ?_⟩
  · unfold wrapInt8
    refine ⟨?_, ?_, ?_⟩ <;> omega
  · intro hhi
    rw [toZeroLevel_of_small lvl hlo hhi]
    unfold saturateInt8
    split
    · omega
    · split <;> omega

/-- C2, witness at `lvl = -126`, the lowest level of the amended range, where
the result is `127`, the top of the `int8` range. -/
theorem toZeroLevel_saturates_input_witness :
    (-126 : Int) ≤ -126 ∧ toZeroLevel (-126) = 1 - min (-126) 127 ∧
      (wrapInt8 (min (-126) 127) = min (-126) 127 ∧
        wrapInt8 (0 - min (-126) 127) = 0 - min (-126) 127 ∧
        wrapInt8 (0 - min (-126) 127 + 1) = 0 - min (-126) 127 + 1) ∧
      (-128 ≤ toZeroLevel (-126) ∧ toZeroLevel (-126) ≤ 127) ∧
      ((-126 : Int) ≤ 127 → toZeroLevel (-126) = saturateInt8 (1 - (-126))) :=
  ⟨by decide, toZeroLevel_saturates_input (-126) (by decide)⟩

/-- C3: for every integer `n > 127`, `toZeroLevel n` equals `toZeroLevel 127`,
which is `-126`. -/
theorem toZeroLevel_clamps_above (n : Int) (h : n > 127) :
    toZeroLevel n = toZeroLevel 127 ∧ toZeroLevel 127 = -126 := by
  have h127 : toZeroLevel 127 = -126 := by decide
  exact ⟨by rw [h127]; exact toZeroLevel_of_large n h, h127⟩

/-- C3, witness at `n = 128`, the first value that does not fit in `int8`. -/
theorem toZeroLevel_clamps_above_witness :
    (128 : Int) > 127 ∧ toZeroLevel 128 = toZeroLevel 127 ∧ toZeroLevel 127 = -126 :=
  ⟨by decide, toZeroLevel_clamps_above 128 (by decide)⟩

/-! ## Key-value validation: claims -/

/-- C4: for every even-length argument list (the empty one included) whose
elements at even indices are all strings, `newKeyValues` returns without error
exactly `len(args) / 2` pairs, pair `i` having key `args[2i]` and value
`args[2i+1]`, and flattening the pairs gives `args` back. -/
theorem newKeyValues_wellFormed (args : List Value) (h : WellFormed args) :
    ∃ kvs, newKeyValues args = .ret (kvs, none) ∧
      kvs.length = args.length / 2 ∧
      (∀ i kv, kvs[i]? = some kv →
        args[2 * i]? = some (Value.str kv.key) ∧ args[2 * i + 1]? = some kv.value) ∧
      flattenKeyValues kvs = args := by
  obtain ⟨hlen, hkeys⟩ := h
  have hnone : firstBadKey args = none := (firstBadKey_eq_none_iff args).mpr hkeys
  have hflat := flattenKeyValues_pairsOf args hlen hnone
  refine ⟨pairsOf args, ?_, ?_, ?_, hflat⟩
  · rw [newKeyValues_even args hlen, hnone]
  · have := length_flattenKeyValues (pairsOf args)
    rw [hflat] at this
    omega
  · intro i kv hkv
    have := getElem?_flattenKeyValues (pairsOf args) i kv hkv
    rwa [hflat] at this

/-- C4, witness on the arguments `"val1", 1, "val2", nil`. -/
theorem newKeyValues_wellFormed_witness :
    WellFormed [Value.str "val1", Value.int 1, Value.str "val2", Value.nil] ∧
      ∃ kvs, newKeyValues [Value.str "val1", Value.int 1, Value.str "val2", Value.nil]
          = .ret (kvs, none) ∧
        kvs.length = [Value.str "val1", Value.int 1, Value.str "val2", Value.nil].length / 2 ∧
        (∀ i kv, kvs[i]? = some kv →
          [Value.str "val1", Value.int 1, Value.str "val2", Value.nil][2 * i]?
              = some (Value.str kv.key) ∧
            [Value.str "val1", Value.int 1, Value.str "val2", Value.nil][2 * i + 1]?
              = some kv.value) ∧
        flattenKeyValues kvs = [Value.str "val1", Value.int 1, Value.str "val2", Value.nil] :=
  have hwf : WellFormed [Value.str "val1", Value.int 1, Value.str "val2", Value.nil] :=
    ⟨by decide, (firstBadKey_eq_none_iff _).mp (by decide)⟩
  ⟨hwf, newKeyValues_wellFormed _ hwf⟩

/-- C5: `newKeyValues` returns an error if and only if the number of arguments
is odd or some element at an even index is not a string; in every other case
it returns a list of pairs and no error. -/
theorem newKeyValues_fails_iff (args : List Value) :
    ((∃ kvs msg, newKeyValues args = .ret (kvs, some msg)) ↔
      (args.length % 2 = 1 ∨
        ∃ i k, i % 2 = 0 ∧ args[i]? = some k ∧ (assertString k).2 = false)) ∧
    ((∃ kvs msg, newKeyValues args = .ret (kvs, some msg)) ∨
      ∃ kvs, newKeyValues args = .ret (kvs, none)) := by
  rcases Nat.mod_two_eq_zero_or_one args.length with hlen | hlen
  · have hev := newKeyValues_even args hlen
    cases hb : firstBadKey args with
    | none =>
      rw [hb] at hev
      have hkeys := (firstBadKey_eq_none_iff args).mp hb
      refine ⟨⟨?_, ?_⟩, Or.inr ⟨_, hev⟩⟩
      · rintro ⟨kvs, msg, hm⟩
        rw [hev] at hm
        simp at hm
      · rintro (hodd | ⟨i, k, hi, hk, hbad⟩)
        · omega
        · rw [hkeys i k hi hk] at hbad
          simp at hbad
    | some k =>
      rw [hb] at hev
      obtain ⟨i, hi, hk, hbad, _⟩ := firstBadKey_eq_some args k hb
      exact ⟨⟨fun _ => Or.inr ⟨i, k, hi, hk, hbad⟩, fun _ => ⟨_, _, hev⟩⟩, Or.inl ⟨_, _, hev⟩⟩
  · have hodd := newKeyValues_odd args hlen
    exact ⟨⟨fun _ => Or.inl hlen, fun _ => ⟨_, _, hodd⟩⟩, Or.inl ⟨_, _, hodd⟩⟩

/-- C6: for every odd-length argument list, `newKeyValues` returns no pairs and
an error whose message is exactly
"odd number of arguments passed as key-value pairs for logging". -/
theorem newKeyValues_odd_length_error (args : List Value) (h : args.length % 2 = 1) :
    newKeyValues args =
      .ret ([], some "odd number of arguments passed as key-value pairs for logging") :=
  newKeyValues_odd args h

/-- C6, witness on the arguments `"k1", 1, "bad"`. -/
theorem newKeyValues_odd_length_error_witness :
    [Value.str "k1", Value.int 1, Value.str "bad"].length % 2 = 1 ∧
      newKeyValues [Value.str "k1", Value.int 1, Value.str "bad"] =
        .ret ([], some "odd number of arguments passed as key-value pairs for logging") :=
  ⟨by decide, newKeyValues_odd_length_error _ (by decide)⟩

/-- C7, counterexample: the one-element list `1` has a non-string element at
the even index 0, yet the error returned is the odd-number-of-arguments one,
whose message is not the non-string-key message and does not contain the
rendering `1` of the element. -/
theorem newKeyValues_odd_length_hides_key_counterexample :
    (∃ i k, i % 2 = 0 ∧ [Value.int 1][i]? = some k ∧ (assertString k).2 = false) ∧
      newKeyValues [Value.int 1] = .ret ([], some oddArgsMsg) ∧
      oddArgsMsg ≠ nonStringKeyMsg (Value.int 1) ∧
      ¬ ((formatV (Value.int 1)).toList <:+: oddArgsMsg.toList) :=
  ⟨⟨0, Value.int 1, by decide, by decide, by decide⟩, by decide, by decide, by decide⟩

/-- C7, as amended: for every argument list of even length in which some
element at an even index is not a string, `newKeyValues` returns no pairs and
the error "non-string key argument passed to logging: <value>", where <value>
is the `%v` rendering of the first such element. -/
theorem newKeyValues_nonString_key_error (args : List Value)
    (hlen : args.length % 2 = 0)
    (hbad : ∃ i k, i % 2 = 0 ∧ args[i]? = some k ∧ (assertString k).2 = false) :
    ∃ i k, i % 2 = 0 ∧ args[i]? = some k ∧ (assertString k).2 = false ∧
      (∀ j k', j < i → j % 2 = 0 → args[j]? = some k' → (assertString k').2 = true) ∧
      newKeyValues args =
        .ret ([], some ("non-string key argument passed to logging: " ++ formatV k)) := by
  cases hb : firstBadKey args with
  | none =>
    obtain ⟨i, k, hi, hk, hfalse⟩ := hbad
    rw [(firstBadKey_eq_none_iff args).mp hb i k hi hk] at hfalse
    simp at hfalse
  | some k =>
    obtain ⟨i, hi, hk, hfalse, hmin⟩ := firstBadKey_eq_some args k hb
    refine ⟨i, k, hi, hk, hfalse, hmin, ?_⟩
    rw [newKeyValues_even args hlen, hb]
    rfl

/-- C7, witness on the arguments `"a", 1, 3, nil`, whose second key is the
integer `3`. -/
theorem newKeyValues_nonString_key_error_witness :
    [Value.str "a", Value.int 1, Value.int 3, Value.nil].length % 2 = 0 ∧
      (∃ i k, i % 2 = 0 ∧ [Value.str "a", Value.int 1, Value.int 3, Value.nil][i]? = some k ∧
        (assertString k).2 = false) ∧
      ∃ i k, i % 2 = 0 ∧ [Value.str "a", Value.int 1, Value.int 3, Value.nil][i]? = some k ∧
        (assertString k).2 = false ∧
        (∀ j k', j < i → j % 2 = 0 →
          [Value.str "a", Value.int 1, Value.int 3, Value.nil][j]? = some k' →
          (assertString k').2 = true) ∧
        newKeyValues [Value.str "a", Value.int 1, Value.int 3, Value.nil] =
          .ret ([], some ("non-string key argument passed to logging: " ++ formatV k)) :=
  have hbad : ∃ i k, i % 2 = 0 ∧
      [Value.str "a", Value.int 1, Value.int 3, Value.nil][i]? = some k ∧
      (assertString k).2 = false := ⟨2, Value.int 3, by decide, by decide, by decide⟩
  ⟨by decide, hbad, newKeyValues_nonString_key_error _ (by decide) hbad⟩

/-! ## The sink adapter: claims -/

/-- C8: for every adapter and every integer `lvl`, `Enabled lvl` is true exactly
when `toZeroLevel lvl` is at least the backend logger's configured minimum
level; for a backend at debug level, `Enabled 0` and `Enabled 1` are true and
`Enabled 2` is false. -/
theorem Enabled_iff_translated_ge_level (zl : zeroLogger) (lvl : Int) :
    (zl.Enabled lvl = true ↔ toZeroLevel lvl ≥ zl.l.GetLevel) ∧
      (zl.l.GetLevel = DebugLevel →
        zl.Enabled 0 = true ∧ zl.Enabled 1 = true ∧ zl.Enabled 2 = false) := by
  refine ⟨by simp [zeroLogger.Enabled], ?_⟩
  intro h
  have h0 : toZeroLevel 0 = 1 := by decide
  have h1 : toZeroLevel 1 = 0 := by decide
  have h2 : toZeroLevel 2 = -1 := by decide
  simp [zeroLogger.Enabled, h, h0, h1, h2, DebugLevel]

/-- C8, witness on an adapter whose backend is at debug level. -/
theorem Enabled_iff_translated_ge_level_witness :
    (zeroLogger.mk { level := DebugLevel, context := [] }).l.GetLevel = DebugLevel ∧
      (zeroLogger.mk { level := DebugLevel, context := [] }).Enabled 0 = true ∧
      (zeroLogger.mk { level := DebugLevel, context := [] }).Enabled 1 = true ∧
      (zeroLogger.mk { level := DebugLevel, context := [] }).Enabled 2 = false :=
  ⟨rfl, (Enabled_iff_translated_ge_level
    (zeroLogger.mk { level := DebugLevel, context := [] }) 0).2 rfl⟩

/-- C9, the code at the failing input: on a backend at debug level, verbosity
`0` is enabled while the smaller verbosity `-127` is not, because
`toZeroLevel (-127)` wraps around to `-128`. -/
theorem Enabled_not_monotone_on_negative_input :
    (-127 : Int) < 0 ∧
      (zeroLogger.mk { level := DebugLevel, context := [] }).Enabled 0 = true ∧
      (zeroLogger.mk { level := DebugLevel, context := [] }).Enabled (-127) = false ∧
      toZeroLevel (-127) = -128 := by
  decide

/-- C10: for every adapter, every level `lvl` with `Enabled lvl` true, every
message and every well-formed argument list, `Info` writes exactly one record,
of severity `toZeroLevel lvl`, with the given message, whose fields are the
logger's context fields followed by the key-value pairs of the arguments in
the order supplied. -/
theorem Info_emits_one_record (zl : zeroLogger) (lvl : Int) (msg : String)
    (args : List Value) (out : List Record)
    (hen : zl.Enabled lvl = true) (hwf : WellFormed args) :
    ∃ kvs, newKeyValues args = .ret (kvs, none) ∧ flattenKeyValues kvs = args ∧
      zl.Info lvl msg args out =
        .ret (out ++ [{ level := toZeroLevel lvl,
                        fields := zl.l.context ++ fieldsOf kvs,
                        message := msg }]) := by
  obtain ⟨hlen, hkeys⟩ := hwf
  have hnone : firstBadKey args = none := (firstBadKey_eq_none_iff args).mpr hkeys
  have hret : newKeyValues args = .ret (pairsOf args, none) := by
    rw [newKeyValues_even args hlen, hnone]
  have hge : ¬ toZeroLevel lvl < zl.l.level := by
    have : toZeroLevel lvl ≥ zl.l.GetLevel := by simpa [zeroLogger.Enabled] using hen
    simp only [Logger.GetLevel] at this
    omega
  refine ⟨pairsOf args, hret, flattenKeyValues_pairsOf args hlen hnone, ?_⟩
  simp only [zeroLogger.Info, hret, Logger.WithLevel, hge, if_false, addToEvent_some,
    Event.Msg]

/-- C10, witness: on a backend at debug level with no context fields,
`Info(0, "hello", "val1", 1)` writes one info-severity record with message
"hello" and the field `val1 = 1`. -/
theorem Info_emits_one_record_witness :
    (zeroLogger.mk { level := DebugLevel, context := [] }).Enabled 0 = true ∧
      WellFormed [Value.str "val1", Value.int 1] ∧
      (∃ kvs, newKeyValues [Value.str "val1", Value.int 1] = .ret (kvs, none) ∧
        flattenKeyValues kvs = [Value.str "val1", Value.int 1] ∧
        (zeroLogger.mk { level := DebugLevel, context := [] }).Info 0 "hello"
            [Value.str "val1", Value.int 1] [] =
          .ret ([] ++ [{ level := toZeroLevel 0,
                         fields := [] ++ fieldsOf kvs,
                         message := "hello" }])) ∧
      (zeroLogger.mk { level := DebugLevel, context := [] }).Info 0 "hello"
          [Value.str "val1", Value.int 1] [] =
        .ret [{ level := InfoLevel,
                fields := [{ key := "val1", value := Value.int 1 }],
                message := "hello" }] :=
  have hwf : WellFormed [Value.str "val1", Value.int 1] :=
    ⟨by decide, (firstBadKey_eq_none_iff _).mp (by decide)⟩
  ⟨by decide, hwf,
    Info_emits_one_record (zeroLogger.mk { level := DebugLevel, context := [] }) 0 "hello"
      [Value.str "val1", Value.int 1] [] (by decide) hwf,
    by decide⟩

/-! ## Helper lemmas for the error path and for derivation -/

/-- On a logger that lets error severity through, the fallback event is
written as one record. -/
theorem Msg_Err_of_level_le (l : Logger) (m : String) (out : List Record)
    (h : l.GetLevel ≤ ErrorLevel) :
    Event.Msg (l.Err m) "unable to log message" out = out ++ [fallbackRecord l m] := by
  have hlt : ¬ ErrorLevel < l.level := by
    simp only [Logger.GetLevel] at h
    omega
  simp [Logger.Err, Logger.WithLevel, hlt, Event.Interface, Event.Msg, fallbackRecord]

/-- On a logger stricter than error severity, the fallback event is dropped. -/
theorem Msg_Err_of_level_gt (l : Logger) (m : String) (out : List Record)
    (h : l.GetLevel > ErrorLevel) :
    Event.Msg (l.Err m) "unable to log message" out = out := by
  have hlt : ErrorLevel < l.level := by
    simp only [Logger.GetLevel] at h
    omega
  simp [Logger.Err, Logger.WithLevel, hlt, Event.Interface, Event.Msg]

theorem addToEvent_none (kvs : List keyValue) : addToEvent none kvs = none := by
  induction kvs with
  | nil => rfl
  | cons kv rest ih =>
    simp only [addToEvent, List.foldl_cons, Event.Interface, Option.map_none'] at ih ⊢
    exact ih

theorem Event_Err_some (ev : Event) (err : Option String) :
    Event.Err (some ev) err = some { ev with fields := ev.fields ++ errorFields err } := by
  cases err <;> simp [Event.Err, Event.Interface, errorFields]

/-- What `newKeyValues` returns on a well-formed list. -/
theorem newKeyValues_of_wellFormed (args : List Value) (h : WellFormed args) :
    newKeyValues args = .ret (pairsOf args, none) ∧ flattenKeyValues (pairsOf args) = args := by
  obtain ⟨hlen, hkeys⟩ := h
  have hnone : firstBadKey args = none := (firstBadKey_eq_none_iff args).mpr hkeys
  exact ⟨by rw [newKeyValues_even args hlen, hnone], flattenKeyValues_pairsOf args hlen hnone⟩

/-! ## Logging calls: claims -/

/-- C11: for every adapter, message and well-formed argument list, if
`Enabled lvl` is false then `Info lvl msg args` writes no record. -/
theorem Info_emits_nothing_when_disabled (zl : zeroLogger) (lvl : Int) (msg : String)
    (args : List Value) (out : List Record)
    (hdis : zl.Enabled lvl = false) (hwf : WellFormed args) :
    zl.Info lvl msg args out = .ret out := by
  have hret := (newKeyValues_of_wellFormed args hwf).1
  have hlt : toZeroLevel lvl < zl.l.level := by
    have : ¬ toZeroLevel lvl ≥ zl.l.GetLevel := by simpa [zeroLogger.Enabled] using hdis
    simp only [Logger.GetLevel] at this
    omega
  simp only [zeroLogger.Info, hret, Logger.WithLevel, hlt, if_true, addToEvent_none,
    Event.Msg]

/-- C11, witness: `Info(1, "x")` on a backend whose minimum level is info, and
a verbosity-2 `Info` on a backend at debug level, write nothing. -/
theorem Info_emits_nothing_when_disabled_witness :
    (zeroLogger.mk { level := InfoLevel, context := [] }).Enabled 1 = false ∧
      WellFormed [] ∧
      (zeroLogger.mk { level := InfoLevel, context := [] }).Info 1 "x" [] [] = .ret [] ∧
      (zeroLogger.mk { level := DebugLevel, context := [] }).Enabled 2 = false ∧
      (zeroLogger.mk { level := DebugLevel, context := [] }).Info 2
        "you should NOT see this" [] [] = .ret [] :=
  have hwf : WellFormed [] := ⟨by decide, (firstBadKey_eq_none_iff _).mp (by decide)⟩
  ⟨by decide, hwf,
    Info_emits_nothing_when_disabled (zeroLogger.mk { level := InfoLevel, context := [] })
      1 "x" [] [] (by decide) hwf,
    by decide,
    Info_emits_nothing_when_disabled (zeroLogger.mk { level := DebugLevel, context := [] })
      2 "you should NOT see this" [] [] (by decide) hwf⟩

/-- C12, counterexample: on a backend whose minimum level is fatal, `Info` and
`Error` with the rejected one-element list `"k"` write no record at all. -/
theorem rejected_call_emits_nothing_counterexample :
    newKeyValues [Value.str "k"] = .ret ([], some oddArgsMsg) ∧
      (zeroLogger.mk { level := FatalLevel, context := [] }).Info 0 "m" [Value.str "k"] []
        = .ret [] ∧
      (zeroLogger.mk { level := FatalLevel, context := [] }).Error (some "e") "m"
        [Value.str "k"] [] = .ret [] := by
  decide

/-- C12, as amended: for every adapter whose backend minimum level is at or
below error, every message and every argument list that `newKeyValues` rejects,
a call to `Info` (for any level) or to `Error` (for any error) writes exactly
one record, at error severity, with message "unable to log message" and the
validation error attached after the logger's context fields, and nothing else. -/
theorem rejected_call_emits_fallback (zl : zeroLogger) (lvl : Int) (err : Option String)
    (msg : String) (args : List Value) (out : List Record)
    (kvs : List keyValue) (m : String)
    (hlevel : zl.l.GetLevel ≤ ErrorLevel)
    (hrej : newKeyValues args = .ret (kvs, some m)) :
    zl.Info lvl msg args out =
        .ret (out ++ [{ level := ErrorLevel,
                        fields := zl.l.context ++ [{ key := "error", value := Value.str m }],
                        message := "unable to log message" }]) ∧
      zl.Error err msg args out =
        .ret (out ++ [{ level := ErrorLevel,
                        fields := zl.l.context ++ [{ key := "error", value := Value.str m }],
                        message := "unable to log message" }]) := by
  have hfb := Msg_Err_of_level_le zl.l m out hlevel
  have hng : ¬ zl.l.GetLevel > ErrorLevel := by omega
  constructor
  · simp only [zeroLogger.Info, hrej, hfb, fallbackRecord]
  · simp only [zeroLogger.Error, hng, if_false, hrej, hfb, fallbackRecord]

/-- C12, witness: on a backend at debug level, `Info` and `Error` with the
odd-length list `"k1", 1, "bad"`. -/
theorem rejected_call_emits_fallback_witness :
    (zeroLogger.mk { level := DebugLevel, context := [] }).l.GetLevel ≤ ErrorLevel ∧
      newKeyValues [Value.str "k1", Value.int 1, Value.str "bad"]
        = .ret ([], some oddArgsMsg) ∧
      (zeroLogger.mk { level := DebugLevel, context := [] }).Info 0 "hello"
          [Value.str "k1", Value.int 1, Value.str "bad"] [] =
        .ret ([] ++ [{ level := ErrorLevel,
                       fields := [] ++ [{ key := "error", value := Value.str oddArgsMsg }],
                       message := "unable to log message" }]) ∧
      (zeroLogger.mk { level := DebugLevel, context := [] }).Error none "hello"
          [Value.str "k1", Value.int 1, Value.str "bad"] [] =
        .ret ([] ++ [{ level := ErrorLevel,
                       fields := [] ++ [{ key := "error", value := Value.str oddArgsMsg }],
                       message := "unable to log message" }]) :=
  ⟨by decide, by decide,
    rejected_call_emits_fallback (zeroLogger.mk { level := DebugLevel, context := [] })
      0 none "hello" [Value.str "k1", Value.int 1, Value.str "bad"] [] [] oddArgsMsg
      (by decide) (by decide)⟩

/-- C13: for every adapter whose backend minimum level is greater than the
error level, `Error` writes no record, whatever the error, the message and the
arguments, well-formed or not. -/
theorem Error_emits_nothing_above_error_level (zl : zeroLogger) (err : Option String)
    (msg : String) (args : List Value) (out : List Record)
    (hlevel : zl.l.GetLevel > ErrorLevel) :
    zl.Error err msg args out = .ret out := by
  simp only [zeroLogger.Error, hlevel, if_true]

/-- C13, witness: `Error(nil, msg)` with a malformed argument list on a backend
whose minimum level is fatal. -/
theorem Error_emits_nothing_above_error_level_witness :
    (zeroLogger.mk { level := FatalLevel, context := [] }).l.GetLevel > ErrorLevel ∧
      (zeroLogger.mk { level := FatalLevel, context := [] }).Error none "uh oh"
        [Value.str "k1", Value.int 1, Value.str "bad"] [] = .ret [] :=
  ⟨by decide,
    Error_emits_nothing_above_error_level
      (zeroLogger.mk { level := FatalLevel, context := [] }) none "uh oh"
      [Value.str "k1", Value.int 1, Value.str "bad"] [] (by decide)⟩

/-- C14: for every adapter whose backend minimum level is at or below error,
every error, message and well-formed argument list, `Error` writes exactly one
record, at error severity, with the given message, whose fields are the
logger's context fields, then the error under the key `error` when it is not
nil, then the key-value pairs of the arguments in the order supplied. -/
theorem Error_emits_one_record (zl : zeroLogger) (err : Option String) (msg : String)
    (args : List Value) (out : List Record)
    (hlevel : zl.l.GetLevel ≤ ErrorLevel) (hwf : WellFormed args) :
    ∃ kvs, newKeyValues args = .ret (kvs, none) ∧ flattenKeyValues kvs = args ∧
      zl.Error err msg args out =
        .ret (out ++ [{ level := ErrorLevel,
                        fields := zl.l.context ++ errorFields err ++ fieldsOf kvs,
                        message := msg }]) := by
  obtain ⟨hret, hflat⟩ := newKeyValues_of_wellFormed args hwf
  have hng : ¬ zl.l.GetLevel > ErrorLevel := by omega
  have hlt : ¬ ErrorLevel < zl.l.level := by
    simp only [Logger.GetLevel] at hlevel
    omega
  refine ⟨pairsOf args, hret, hflat, ?_⟩
  simp only [zeroLogger.Error, hng, if_false, hret, Logger.Error, Logger.WithLevel, hlt,
    Event_Err_some, addToEvent_some, Event.Msg]

/-- C14, witness: on a backend at debug level,
`Error(errors.New("an error occurred"), "goodbye", "code", -1)` writes one
error-severity record with the error field followed by `code = -1`. -/
theorem Error_emits_one_record_witness :
    (zeroLogger.mk { level := DebugLevel, context := [] }).l.GetLevel ≤ ErrorLevel ∧
      WellFormed [Value.str "code", Value.int (-1)] ∧
      (∃ kvs, newKeyValues [Value.str "code", Value.int (-1)] = .ret (kvs, none) ∧
        flattenKeyValues kvs = [Value.str "code", Value.int (-1)] ∧
        (zeroLogger.mk { level := DebugLevel, context := [] }).Error
            (some "an error occurred") "goodbye" [Value.str "code", Value.int (-1)] [] =
          .ret ([] ++ [{ level := ErrorLevel,
                         fields := [] ++ errorFields (some "an error occurred") ++ fieldsOf kvs,
                         message := "goodbye" }])) ∧
      (zeroLogger.mk { level := DebugLevel, context := [] }).Error
          (some "an error occurred") "goodbye" [Value.str "code", Value.int (-1)] [] =
        .ret [{ level := ErrorLevel,
                fields := [{ key := "error", value := Value.str "an error occurred" },
                           { key := "code", value := Value.int (-1) }],
                message := "goodbye" }] :=
  have hwf : WellFormed [Value.str "code", Value.int (-1)] :=
    ⟨by decide, (firstBadKey_eq_none_iff _).mp (by decide)⟩
  ⟨by decide, hwf,
    Error_emits_one_record (zeroLogger.mk { level := DebugLevel, context := [] })
      (some "an error occurred") "goodbye" [Value.str "code", Value.int (-1)] []
      (by decide) hwf,
    by decide⟩

/-! ## Helper lemmas for derivation -/

theorem addToContext_eq (kvs : List keyValue) : ∀ c : Context,
    addToContext c kvs = { l := { c.l with context := c.l.context ++ fieldsOf kvs } } := by
  induction kvs with
  | nil => intro c; simp [addToContext, fieldsOf]
  | cons kv rest ih =>
    intro c
    have := ih (c.Interface kv.key kv.value)
    simp only [addToContext, List.foldl_cons] at this ⊢
    rw [this]
    simp [Context.Interface, fieldsOf]

/-- What `WithValues` returns on a well-formed list. -/
theorem WithValues_of_wellFormed (zl : zeroLogger) (args : List Value) (out : List Record)
    (h : WellFormed args) :
    zl.WithValues args out =
      .ret ({ l := { zl.l with context := zl.l.context ++ fieldsOf (pairsOf args) } }, out) := by
  have hret := (newKeyValues_of_wellFormed args h).1
  simp only [zeroLogger.WithValues, hret, addToContext_eq, Logger.With, Context.Logger]

theorem pairsOf_append : ∀ xs ys : List Value, xs.length % 2 = 0 →
    pairsOf (xs ++ ys) = pairsOf xs ++ pairsOf ys
  | [], ys, _ => by simp [pairsOf]
  | [k], _, h => by simp at h
  | k :: v :: rest, ys, h => by
    have hlen : rest.length % 2 = 0 := by
      simp only [List.length_cons] at h
      omega
    have ih := pairsOf_append rest ys hlen
    show pairsOf (k :: v :: (rest ++ ys)) = pairsOf (k :: v :: rest) ++ pairsOf ys
    simp only [pairsOf, ih, List.cons_append]

theorem firstBadKey_append : ∀ xs ys : List Value, xs.length % 2 = 0 →
    firstBadKey xs = none → firstBadKey (xs ++ ys) = firstBadKey ys
  | [], ys, _, _ => by simp
  | [k], _, h, _ => by simp at h
  | k :: v :: rest, ys, h, hb => by
    have hlen : rest.length % 2 = 0 := by
      simp only [List.length_cons] at h
      omega
    cases hs : (assertString k).2
    · simp [firstBadKey, hs] at hb
    · simp only [firstBadKey, hs, if_true] at hb
      have ih := firstBadKey_append rest ys hlen hb
      show firstBadKey (k :: v :: (rest ++ ys)) = firstBadKey ys
      simp only [firstBadKey, hs, if_true, ih]

theorem WellFormed_append (xs ys : List Value) (hx : WellFormed xs) (hy : WellFormed ys) :
    WellFormed (xs ++ ys) := by
  obtain ⟨hxl, hxk⟩ := hx
  obtain ⟨hyl, hyk⟩ := hy
  refine ⟨by rw [List.length_append]; omega, ?_⟩
  have hxn := (firstBadKey_eq_none_iff xs).mpr hxk
  have hyn := (firstBadKey_eq_none_iff ys).mpr hyk
  exact (firstBadKey_eq_none_iff (xs ++ ys)).mp (by rw [firstBadKey_append xs ys hxl hxn, hyn])

theorem fieldsOf_append (a b : List keyValue) :
    fieldsOf (a ++ b) = fieldsOf a ++ fieldsOf b := by
  simp [fieldsOf]

/-! ## Derivation: claims -/

/-- C15, counterexample: on a backend whose minimum level is fatal,
`WithValues("k1", 1, "bad")` returns the receiver and writes no fallback
record; and on a receiver whose context already holds the key `k1`, a record
later written through the returned adapter carries that key. -/
theorem WithValues_rejected_counterexample :
    (zeroLogger.mk { level := FatalLevel, context := [] }).WithValues
        [Value.str "k1", Value.int 1, Value.str "bad"] [] =
      .ret (zeroLogger.mk { level := FatalLevel, context := [] }, []) ∧
    (zeroLogger.mk { level := DebugLevel,
                     context := [{ key := "k1", value := Value.int 0 }] }).Info 0 "x" [] [] =
      .ret [{ level := InfoLevel,
              fields := [{ key := "k1", value := Value.int 0 }],
              message := "x" }] := by
  decide

/-- C15, as amended: for every adapter whose backend minimum level is at or
below error and every argument list that `newKeyValues` rejects, `WithValues`
returns the receiver itself, with its backend logger, level and context fields
unchanged, and writes one fallback "unable to log message" error record;
records later written through the returned adapter are exactly those the
receiver writes, nothing of the rejected list being added to them. -/
theorem WithValues_rejected_returns_receiver (zl : zeroLogger) (args : List Value)
    (out : List Record) (kvs : List keyValue) (m : String)
    (hlevel : zl.l.GetLevel ≤ ErrorLevel)
    (hrej : newKeyValues args = .ret (kvs, some m)) :
    ∃ r, zl.WithValues args out = .ret r ∧ r.1 = zl ∧
      r.1.l.level = zl.l.level ∧ r.1.l.context = zl.l.context ∧
      r.2 = out ++ [{ level := ErrorLevel,
                      fields := zl.l.context ++ [{ key := "error", value := Value.str m }],
                      message := "unable to log message" }] ∧
      (∀ lvl msg args2 out2, r.1.Info lvl msg args2 out2 = zl.Info lvl msg args2 out2) ∧
      (∀ err msg args2 out2, r.1.Error err msg args2 out2 = zl.Error err msg args2 out2) := by
  have hfb := Msg_Err_of_level_le zl.l m out hlevel
  refine ⟨(zl, out ++ [fallbackRecord zl.l m]), ?_, rfl, rfl, rfl, rfl, ?_, ?_⟩
  · simp only [zeroLogger.WithValues, hrej, hfb]
  · intro lvl msg args2 out2; rfl
  · intro err msg args2 out2; rfl

/-- C15, witness: `WithValues("k1", 1, "bad")` on a backend at debug level. -/
theorem WithValues_rejected_returns_receiver_witness :
    (zeroLogger.mk { level := DebugLevel, context := [] }).l.GetLevel ≤ ErrorLevel ∧
      newKeyValues [Value.str "k1", Value.int 1, Value.str "bad"]
        = .ret ([], some oddArgsMsg) ∧
      ∃ r, (zeroLogger.mk { level := DebugLevel, context := [] }).WithValues
          [Value.str "k1", Value.int 1, Value.str "bad"] [] = .ret r ∧
        r.1 = zeroLogger.mk { level := DebugLevel, context := [] } ∧
        r.1.l.level = (zeroLogger.mk { level := DebugLevel, context := [] }).l.level ∧
        r.1.l.context = (zeroLogger.mk { level := DebugLevel, context := [] }).l.context ∧
        r.2 = [] ++ [{ level := ErrorLevel,
                       fields := (zeroLogger.mk { level := DebugLevel, context := [] }).l.context
                         ++ [{ key := "error", value := Value.str oddArgsMsg }],
                       message := "unable to log message" }] ∧
        (∀ lvl msg args2 out2, r.1.Info lvl msg args2 out2 =
          (zeroLogger.mk { level := DebugLevel, context := [] }).Info lvl msg args2 out2) ∧
        (∀ err msg args2 out2, r.1.Error err msg args2 out2 =
          (zeroLogger.mk { level := DebugLevel, context := [] }).Error err msg args2 out2) :=
  ⟨by decide, by decide,
    WithValues_rejected_returns_receiver
      (zeroLogger.mk { level := DebugLevel, context := [] })
      [Value.str "k1", Value.int 1, Value.str "bad"] [] [] oddArgsMsg
      (by decide) (by decide)⟩

/-- C16: for every adapter and well-formed argument lists `xs` and `ys`, the
adapter obtained by `WithValues xs` then `WithValues ys` has as context fields
the receiver's context fields, then the pairs of `xs`, then the pairs of `ys`,
the same adapter as `WithValues (xs ++ ys)` gives, with the receiver's minimum
level; neither call writes a record. -/
theorem WithValues_twice (zl : zeroLogger) (xs ys : List Value) (out : List Record)
    (hx : WellFormed xs) (hy : WellFormed ys) :
    ∃ kx ky zl1 zl2, flattenKeyValues kx = xs ∧ flattenKeyValues ky = ys ∧
      zl.WithValues xs out = .ret (zl1, out) ∧
      zl1.WithValues ys out = .ret (zl2, out) ∧
      zl1.l.context = zl.l.context ++ fieldsOf kx ∧
      zl2.l.context = zl.l.context ++ fieldsOf kx ++ fieldsOf ky ∧
      zl1.l.level = zl.l.level ∧ zl2.l.level = zl.l.level ∧
      zl.WithValues (xs ++ ys) out = .ret (zl2, out) := by
  have hxf := (newKeyValues_of_wellFormed xs hx).2
  have hyf := (newKeyValues_of_wellFormed ys hy).2
  refine ⟨pairsOf xs, pairsOf ys,
    { l := { zl.l with context := zl.l.context ++ fieldsOf (pairsOf xs) } },
    { l := { level := zl.l.level,
             context := zl.l.context ++ fieldsOf (pairsOf xs) ++ fieldsOf (pairsOf ys) } },
    hxf, hyf, WithValues_of_wellFormed zl xs out hx, ?_, rfl, rfl, rfl, rfl, ?_⟩
  · rw [WithValues_of_wellFormed _ ys out hy]
  · rw [WithValues_of_wellFormed zl (xs ++ ys) out (WellFormed_append xs ys hx hy),
      pairsOf_append xs ys hx.1, fieldsOf_append, List.append_assoc]

/-- C16, witness: `WithValues("a", 1)` then `WithValues("c", true)` on an
adapter whose context holds `module = 7`. -/
theorem WithValues_twice_witness :
    WellFormed [Value.str "a", Value.int 1] ∧ WellFormed [Value.str "c", Value.bool true] ∧
      ∃ kx ky zl1 zl2, flattenKeyValues kx = [Value.str "a", Value.int 1] ∧
        flattenKeyValues ky = [Value.str "c", Value.bool true] ∧
        (zeroLogger.mk { level := DebugLevel, context := [{ key := "module", value := Value.int 7 }] }).WithValues
          [Value.str "a", Value.int 1] [] = .ret (zl1, []) ∧
        zl1.WithValues [Value.str "c", Value.bool true] [] = .ret (zl2, []) ∧
        zl1.l.context = (zeroLogger.mk { level := DebugLevel, context := [{ key := "module", value := Value.int 7 }] }).l.context
          ++ fieldsOf kx ∧
        zl2.l.context = (zeroLogger.mk { level := DebugLevel, context := [{ key := "module", value := Value.int 7 }] }).l.context
          ++ fieldsOf kx ++ fieldsOf ky ∧
        zl1.l.level = (zeroLogger.mk { level := DebugLevel, context := [{ key := "module", value := Value.int 7 }] }).l.level ∧
        zl2.l.level = (zeroLogger.mk { level := DebugLevel, context := [{ key := "module", value := Value.int 7 }] }).l.level ∧
        (zeroLogger.mk { level := DebugLevel, context := [{ key := "module", value := Value.int 7 }] }).WithValues
          ([Value.str "a", Value.int 1] ++ [Value.str "c", Value.bool true]) [] =
          .ret (zl2, []) :=
  have hx : WellFormed [Value.str "a", Value.int 1] :=
    ⟨by decide, (firstBadKey_eq_none_iff _).mp (by decide)⟩
  have hy : WellFormed [Value.str "c", Value.bool true] :=
    ⟨by decide, (firstBadKey_eq_none_iff _).mp (by decide)⟩
  ⟨hx, hy, WithValues_twice _ _ _ [] hx hy⟩

/-- C17: for every adapter and every two names, `WithName` returns adapters
with the receiver's minimum level and context fields, the same for both names,
so that `Info` and `Error` through either write exactly what they write
through the receiver. -/
theorem WithName_ignores_name (zl : zeroLogger) (n1 n2 : String) :
    (zl.WithName n1).l.level = zl.l.level ∧ (zl.WithName n1).l.context = zl.l.context ∧
      (zl.WithName n2).l.level = zl.l.level ∧ (zl.WithName n2).l.context = zl.l.context ∧
      zl.WithName n1 = zl.WithName n2 ∧
      (∀ lvl msg args out,
        (zl.WithName n1).Info lvl msg args out = zl.Info lvl msg args out ∧
        (zl.WithName n2).Info lvl msg args out = zl.Info lvl msg args out) ∧
      (∀ err msg args out,
        (zl.WithName n1).Error err msg args out = zl.Error err msg args out ∧
        (zl.WithName n2).Error err msg args out = zl.Error err msg args out) := by
  have h : ∀ n, zl.WithName n = zl := by
    intro n
    simp [zeroLogger.WithName, Logger.With, Context.Logger]
  rw [h n1, h n2]
  exact ⟨rfl, rfl, rfl, rfl, rfl, fun _ _ _ _ => ⟨rfl, rfl⟩, fun _ _ _ _ => ⟨rfl, rfl⟩⟩

/-! ## Totality, error order and level bounds: claims -/

/-- On a list of even length the loop, started at an even index, never reads
past the end, whatever the fuel. -/
theorem newKeyValuesLoop_ne_panic (args : List Value) (hlen : args.length % 2 = 0) :
    ∀ (fuel i : Nat) (kvs : List keyValue), i % 2 = 0 →
      newKeyValuesLoop args fuel i kvs ≠ .panic := by
  intro fuel
  induction fuel with
  | zero => intro i kvs _; simp [newKeyValuesLoop]
  | succ fuel ih =>
    intro i kvs hi
    rw [newKeyValuesLoop]
    by_cases hlt : i < args.length
    · have hlt1 : i + 1 < args.length := by omega
      simp only [hlt, if_true, List.getElem?_eq_getElem hlt, List.getElem?_eq_getElem hlt1]
      cases hs : (assertString args[i]).2
      · simp [hs]
      · simpa [hs] using ih (i + 2) _ (by omega)
    · simp [hlt]

/-- C18: for every argument list, `newKeyValues` returns normally, with either
a list of pairs and no error or no pairs and an error; and on a list that has
passed the arity check, every even index `i` inside the list has `i + 1` inside
the list too, so that the loop, from any such index, never reads out of
bounds. -/
theorem newKeyValues_total (args : List Value) :
    ((∃ kvs, newKeyValues args = .ret (kvs, none)) ∨
      (∃ msg, newKeyValues args = .ret ([], some msg))) ∧
    newKeyValues args ≠ .panic ∧ newKeyValues args ≠ .outOfFuel ∧
    (args.length % 2 = 0 → ∀ (fuel i : Nat) (kvs : List keyValue), i % 2 = 0 →
      (i < args.length → i + 1 < args.length) ∧
        newKeyValuesLoop args fuel i kvs ≠ .panic) := by
  have hres : (∃ kvs, newKeyValues args = .ret (kvs, none)) ∨
      (∃ msg, newKeyValues args = .ret ([], some msg)) := by
    rcases Nat.mod_two_eq_zero_or_one args.length with hlen | hlen
    · have hev := newKeyValues_even args hlen
      cases hb : firstBadKey args with
      | none => rw [hb] at hev; exact Or.inl ⟨_, hev⟩
      | some k => rw [hb] at hev; exact Or.inr ⟨_, hev⟩
    · exact Or.inr ⟨_, newKeyValues_odd args hlen⟩
  refine ⟨hres, ?_, ?_, ?_⟩
  · rcases hres with ⟨kvs, h⟩ | ⟨msg, h⟩ <;> rw [h] <;> simp
  · rcases hres with ⟨kvs, h⟩ | ⟨msg, h⟩ <;> rw [h] <;> simp
  · intro hlen fuel i kvs hi
    exact ⟨fun _ => by omega, newKeyValuesLoop_ne_panic args hlen fuel i kvs hi⟩

/-- C18, witness: the loop on `"a", 1, 3, nil` from index 2. -/
theorem newKeyValues_total_witness :
    [Value.str "a", Value.int 1, Value.int 3, Value.nil].length % 2 = 0 ∧ 2 % 2 = 0 ∧
      ((2 < [Value.str "a", Value.int 1, Value.int 3, Value.nil].length →
          2 + 1 < [Value.str "a", Value.int 1, Value.int 3, Value.nil].length) ∧
        newKeyValuesLoop [Value.str "a", Value.int 1, Value.int 3, Value.nil] 5 2 []
          ≠ .panic) :=
  ⟨by decide, by decide,
    (newKeyValues_total [Value.str "a", Value.int 1, Value.int 3, Value.nil]).2.2.2
      (by decide) 5 2 [] (by decide)⟩

/-- C19: `newKeyValues` checks arity before key types and reports only the
first offending key: for every odd-length list the error is the
odd-number-of-arguments one, whatever the keys; for every even-length list with
a non-string key, the error names the non-string key of smallest index, and no
pairs are returned. -/
theorem newKeyValues_error_order (args : List Value) :
    (args.length % 2 = 1 →
      newKeyValues args =
        .ret ([], some "odd number of arguments passed as key-value pairs for logging")) ∧
    (args.length % 2 = 0 → ∀ i k, i % 2 = 0 → args[i]? = some k →
      (assertString k).2 = false →
      (∀ j k', j < i → j % 2 = 0 → args[j]? = some k' → (assertString k').2 = true) →
      newKeyValues args =
        .ret ([], some ("non-string key argument passed to logging: " ++ formatV k))) := by
  refine ⟨fun h => newKeyValues_odd args h, ?_⟩
  intro hlen i k hi hk hbad hmin
  cases hb : firstBadKey args with
  | none =>
    rw [(firstBadKey_eq_none_iff args).mp hb i k hi hk] at hbad
    simp at hbad
  | some k0 =>
    obtain ⟨i0, hi0, hk0, hbad0, hmin0⟩ := firstBadKey_eq_some args k0 hb
    have hii : i0 = i := by
      rcases Nat.lt_trichotomy i0 i with hlt | heq | hgt
      · rw [hmin i0 k0 hlt hi0 hk0] at hbad0
        simp at hbad0
      · exact heq
      · rw [hmin0 i k hgt hi hk] at hbad
        simp at hbad
    subst hii
    have hkk : k0 = k := by
      rw [hk0] at hk
      exact Option.some.inj hk
    subst hkk
    rw [newKeyValues_even args hlen, hb]
    rfl

/-- C19, witness: the odd-length list `1, "a", 2`, whose first key is not a
string, and the even-length list `"a", 1, 3, nil, 4, 5`, whose first
non-string key is `3`. -/
theorem newKeyValues_error_order_witness :
    ([Value.int 1, Value.str "a", Value.int 2].length % 2 = 1 ∧
      newKeyValues [Value.int 1, Value.str "a", Value.int 2] =
        .ret ([], some "odd number of arguments passed as key-value pairs for logging")) ∧
    ([Value.str "a", Value.int 1, Value.int 3, Value.nil, Value.int 4, Value.int 5].length % 2
        = 0 ∧
      newKeyValues [Value.str "a", Value.int 1, Value.int 3, Value.nil, Value.int 4, Value.int 5]
        = .ret ([], some ("non-string key argument passed to logging: "
            ++ formatV (Value.int 3)))) :=
  ⟨⟨by decide,
    (newKeyValues_error_order [Value.int 1, Value.str "a", Value.int 2]).1 (by decide)⟩,
   ⟨by decide,
    (newKeyValues_error_order
      [Value.str "a", Value.int 1, Value.int 3, Value.nil, Value.int 4, Value.int 5]).2
      (by decide) 2 (Value.int 3) (by decide) (by decide) (by decide)
      (by
        intro j k' hj hjeven hk'
        have h0 : j = 0 := by omega
        subst h0
        simp only [List.getElem?_cons_zero, Option.some.injEq] at hk'
        subst hk'
        rfl)⟩⟩

/-- C20, counterexample: on a backend at debug level, `Info` at verbosity 0
with the one-element list `"k"` writes a record of error severity, which is
above info. -/
theorem Info_nonneg_level_error_record_counterexample :
    (0 : Int) ≤ 0 ∧
      (zeroLogger.mk { level := DebugLevel, context := [] }).Info 0 "x" [Value.str "k"] [] =
        .ret [{ level := ErrorLevel,
                fields := [{ key := "error", value := Value.str oddArgsMsg }],
                message := "unable to log message" }] ∧
      ErrorLevel > InfoLevel := by
  decide

/-- C20, as amended: for every non-negative level `lvl`, `toZeroLevel lvl`
equals `1 - min lvl 127`, no step of its computation wrapping around, and lies
in `[-126, 1]`; hence every record written by `Info` at a non-negative
verbosity with a well-formed argument list has severity `toZeroLevel lvl`, at
most info; and `toZeroLevel` is strictly decreasing on `[0, 127]`. -/
theorem toZeroLevel_nonneg (lvl : Int) (hlvl : 0 ≤ lvl) :
    toZeroLevel lvl = 1 - min lvl 127 ∧
      (wrapInt8 (min lvl 127) = min lvl 127 ∧
        wrapInt8 (0 - min lvl 127) = 0 - min lvl 127 ∧
        wrapInt8 (0 - min lvl 127 + 1) = 0 - min lvl 127 + 1) ∧
      (-126 ≤ toZeroLevel lvl ∧ toZeroLevel lvl ≤ 1) ∧
      (∀ (zl : zeroLogger) (msg : String) (args : List Value) (out : List Record),
        WellFormed args →
        ∃ recs, zl.Info lvl msg args out = .ret (out ++ recs) ∧
          ∀ r ∈ recs, r.level = toZeroLevel lvl ∧ r.level ≤ InfoLevel) ∧
      (∀ lvl2, lvl < lvl2 → lvl2 ≤ 127 → toZeroLevel lvl2 < toZeroLevel lvl) := by
  have hval : toZeroLevel lvl = 1 - min lvl 127 := by
    rcases le_or_lt lvl 127 with h | h
    · rw [toZeroLevel_of_small lvl (by omega) h, min_eq_left h]
    · rw [toZeroLevel_of_large lvl h, min_eq_right (le_of_lt h)]
      rfl
  have hmin : 0 ≤ min lvl 127 ∧ min lvl 127 ≤ 127 := ⟨le_min hlvl (by decide), min_le_right _ _⟩
  have hle : toZeroLevel lvl ≤ 1 := by rw [hval]; omega
  refine ⟨hval, ?_, ⟨by rw [hval]; omega, hle⟩, ?_, ?_⟩
  · unfold wrapInt8
    refine ⟨?_, ?_, ?_⟩ <;> omega
  · intro zl msg args out hwf
    have hret := (newKeyValues_of_wellFormed args hwf).1
    by_cases hlt : toZeroLevel lvl < zl.l.level
    · refine ⟨[], ?_, by simp⟩
      simp only [zeroLogger.Info, hret, Logger.WithLevel, hlt, if_true, addToEvent_none,
        Event.Msg, List.append_nil]
    · refine ⟨[{ level := toZeroLevel lvl,
                 fields := zl.l.context ++ fieldsOf (pairsOf args),
                 message := msg }], ?_, ?_⟩
      · simp only [zeroLogger.Info, hret, Logger.WithLevel, hlt, if_false, addToEvent_some,
          Event.Msg]
      · intro r hr
        simp only [List.mem_singleton] at hr
        subst hr
        exact ⟨rfl, by simpa [InfoLevel] using hle⟩
  · intro lvl2 h1 h2
    rw [toZeroLevel_of_small lvl (by omega) (by omega),
      toZeroLevel_of_small lvl2 (by omega) h2]
    omega

/-- C20, witness at `lvl = 0`, the verbosity of a plain `Info`. -/
theorem toZeroLevel_nonneg_witness :
    (0 : Int) ≤ 0 ∧ toZeroLevel 0 = 1 - min 0 127 ∧
      (wrapInt8 (min 0 127) = min 0 127 ∧
        wrapInt8 (0 - min 0 127) = 0 - min 0 127 ∧
        wrapInt8 (0 - min 0 127 + 1) = 0 - min 0 127 + 1) ∧
      (-126 ≤ toZeroLevel 0 ∧ toZeroLevel 0 ≤ 1) ∧
      (∀ (zl : zeroLogger) (msg : String) (args : List Value) (out : List Record),
        WellFormed args →
        ∃ recs, zl.Info 0 msg args out = .ret (out ++ recs) ∧
          ∀ r ∈ recs, r.level = toZeroLevel 0 ∧ r.level ≤ InfoLevel) ∧
      (∀ lvl2, 0 < lvl2 → lvl2 ≤ 127 → toZeroLevel lvl2 < toZeroLevel 0) :=
  ⟨by decide, toZeroLevel_nonneg 0 (by decide)⟩

end Zerologr
